import Mathlib

/-!
Shallow embedding of the go-cron repository core: the sync engine
(repo/sync.go: CompareAndSync, generateHandle, normalizeTitle), the
product repository batch operations (repo/product.go: CreateProductsBatch,
UpdateProductsBatch), and the paged fetcher (api/handler:
fetchAllItemsConcurrently job generation and result combination).
Go strings are modelled as Lean String over their character lists;
Go ints for counts and ids as Int or Nat as noted at each definition.
-/

namespace GoCron

/-! ### Character-level helpers for Go string functions -/

/-- Go unicode.IsSpace restricted to the Latin-1 range (space, tab, newline,
vertical tab, form feed, carriage return, NEL, NBSP); titles in scope contain
no space characters beyond Latin-1. -/
def goIsSpace (c : Char) : Bool :=
  c.toNat = 32 || c.toNat = 9 || c.toNat = 10 || c.toNat = 11 ||
  c.toNat = 12 || c.toNat = 13 || c.toNat = 133 || c.toNat = 160

/-- Go unicode.ToLower restricted to ASCII and Latin-1 (A-Z and the accented
uppercase block U+00C0..U+00DE except the multiplication sign U+00D7 map down
by 32); characters outside Latin-1 in scope have no distinct lowercase form. -/
def goToLowerChar (c : Char) : Char :=
  if 65 ≤ c.toNat ∧ c.toNat ≤ 90 then Char.ofNat (c.toNat + 32)
  else if 192 ≤ c.toNat ∧ c.toNat ≤ 222 ∧ c.toNat ≠ 215 then Char.ofNat (c.toNat + 32)
  else c

/-- Go strings.TrimSpace on a character list: drop leading and trailing
whitespace. -/
def goTrimSpace (cs : List Char) : List Char :=
  ((cs.dropWhile goIsSpace).reverse.dropWhile goIsSpace).reverse

/-- repo/sync.go normalizeTitle: strings.ToLower(strings.TrimSpace(title)). -/
def normalizeTitle (title : String) : String :=
  String.mk ((goTrimSpace title.data).map goToLowerChar)

/-- The character filter of the loop in repo/sync.go generateHandle:
keep r with (r >= 'a' && r <= 'z') || (r >= '0' && r <= '9') || r == '-'. -/
def isHandleChar (c : Char) : Bool :=
  (97 ≤ c.toNat && c.toNat ≤ 122) || (48 ≤ c.toNat && c.toNat ≤ 57) || c.toNat = 45

/-- repo/sync.go generateHandle: ToLower, ReplaceAll " " with "-",
ReplaceAll "_" with "-" (each single-character replacement is a character
map), then keep only the handle characters. -/
def generateHandle (title : String) : String :=
  String.mk ((((title.data.map goToLowerChar).map
      (fun c => if c = ' ' then '-' else c)).map
      (fun c => if c = '_' then '-' else c)).filter isHandleChar)

/-- Modelled from the spec (section 4.2 DeriveHandle), as the reference
definition for the refinement claim about generateHandle: lowercase,
replace each space and each underscore with a hyphen, then delete every
character that is not a lowercase ASCII letter, a decimal digit, or a
hyphen, with no hyphen-run collapsing. -/
def specDeriveHandle (title : String) : String :=
  String.mk (((title.data.map goToLowerChar).map
      (fun c => if c = ' ' ∨ c = '_' then '-' else c)).filter
      (fun c => (97 ≤ c.toNat && c.toNat ≤ 122) || c.isDigit || c = '-'))

/-! ### Data model (models/items.go) -/

/-- models/items.go Product: id, title, handle. -/
structure Product where
  id : Int
  title : String
  handle : String
deriving Repr, DecidableEq

/-- A dynamic JSON-like value stored in a remote item map; the sync engine
only distinguishes strings from everything else (the type assertion
item["ItemName"].(string)). -/
inductive JValue where
  | str (s : String)
  | other
deriving Repr, DecidableEq

/-- A remote record map[string]interface, modelled as an association list
with the first binding of a key authoritative (Go map keys are unique). -/
abbrev RemoteItem := List (String × JValue)

/-- The lookup plus string type assertion item["ItemName"].(string):
ok is false when the key is absent or the value is not a string. -/
def itemNameOf (item : RemoteItem) : Option String :=
  match item.lookup "ItemName" with
  | some (JValue.str s) => some s
  | _ => none

/-- models/items.go SyncResult: Created, Updated, Unchanged, Errors. -/
structure SyncResult where
  created : Nat
  updated : Nat
  unchanged : Nat
  errors : List String
deriving Repr, DecidableEq

/-- An element of itemsToCreate in CompareAndSync: struct{ Title, Handle }. -/
structure CreateItem where
  title : String
  handle : String
deriving Repr, DecidableEq

/-- An element of itemsToUpdate in CompareAndSync: struct{ ID, Title, Handle }. -/
structure UpdateItem where
  id : Int
  title : String
  handle : String
deriving Repr, DecidableEq

/-! ### The sync engine (repo/sync.go CompareAndSync) -/

/-- The dbProductMap build loop of CompareAndSync, with the Go map
modelled as its lookup function: each product is inserted under its
normalized title, and a later product overwrites an earlier one with the
same key (Go map assignment replaces the binding). -/
def buildDbMap (dbProducts : List Product) : String → Option Product :=
  dbProducts.foldl
    (fun m p k => if normalizeTitle p.title = k then some p else m k)
    (fun _ => none)

/-- The mutable loop state of CompareAndSync while classifying external
items: accumulated validation errors, the unchanged counter, and the two
batches. -/
structure SyncState where
  errors : List String
  unchanged : Nat
  itemsToCreate : List CreateItem
  itemsToUpdate : List UpdateItem
deriving Repr, DecidableEq

/-- The validation error message recorded for an invalid external item. -/
def invalidItemMsg : String := "Invalid or missing ItemName in external item"

/-- One iteration of the external-item loop of CompareAndSync: validate
the ItemName field (absent, non-string, or exactly empty means a recorded
error and a skip), compute handle and normalized key, and classify
against the database map into update, unchanged, or create. -/
def processItem (dbMap : String → Option Product) (st : SyncState)
    (item : RemoteItem) : SyncState :=
  match itemNameOf item with
  | none => { st with errors := st.errors ++ [invalidItemMsg] }
  | some itemName =>
    if itemName = "" then { st with errors := st.errors ++ [invalidItemMsg] }
    else
      let handle := generateHandle itemName
      let key := normalizeTitle itemName
      match dbMap key with
      | some existingProduct =>
        if existingProduct.title ≠ itemName ∨ existingProduct.handle ≠ handle then
          { st with itemsToUpdate :=
              st.itemsToUpdate ++ [⟨existingProduct.id, itemName, handle⟩] }
        else
          { st with unchanged := st.unchanged + 1 }
      | none =>
        { st with itemsToCreate := st.itemsToCreate ++ [⟨itemName, handle⟩] }

/-- What CompareAndSync returns and what it dispatched: the SyncResult
together with the two batches handed to the (disabled) batch writes. -/
structure SyncOutput where
  result : SyncResult
  createBatch : List CreateItem
  updateBatch : List UpdateItem
deriving Repr, DecidableEq

/-- repo/sync.go CompareAndSync, given the database snapshot that
GetAllProducts returned: build the map, classify every external item, then
the two goroutines run. In the source the repository calls inside both
goroutines are commented out, so no write is performed and nothing is sent
on errChan; the create goroutine (entered only when itemsToCreate is
non-empty, but the length of an empty batch is 0 as well) sets
result.Created to len(itemsToCreate), while the assignment
result.Updated = len(itemsToUpdate) is itself commented out, so
result.Updated keeps its zero value. -/
def compareAndSync (dbProducts : List Product)
    (externalItems : List RemoteItem) : SyncOutput :=
  let dbMap := buildDbMap dbProducts
  let st := externalItems.foldl (processItem dbMap) ⟨[], 0, [], []⟩
  { result := { created := st.itemsToCreate.length
              , updated := 0
              , unchanged := st.unchanged
              , errors := st.errors }
  , createBatch := st.itemsToCreate
  , updateBatch := st.itemsToUpdate }

/-! ### Persistence operations (repo/product.go), modelled on a list of
rows. The batch calls are commented out inside CompareAndSync, so the
store transitions below model the SQL of CreateProductsBatch and
UpdateProductsBatch as the spec assumes them live. -/

/-- Whether a row with the given handle exists (the unique index on
handle that the ON CONFLICT clause targets). -/
def handleExists (store : List Product) (h : String) : Bool :=
  store.any (fun p => p.handle = h)

/-- repo/product.go CreateProductsBatch: INSERT .. ON CONFLICT (handle)
DO NOTHING for each batch entry in order, inside one transaction; a row
whose handle already exists (including rows inserted earlier in the same
batch) is skipped. Fresh primary keys are assigned from nextId upward. -/
def createProductsBatch (store : List Product) (nextId : Int)
    (batch : List CreateItem) : List Product :=
  (batch.foldl
    (fun acc c =>
      if handleExists acc.1 c.handle then acc
      else (acc.1 ++ [⟨acc.2, c.title, c.handle⟩], acc.2 + 1))
    (store, nextId)).1

/-- One UPDATE products SET title, handle WHERE id statement. -/
def applyUpdate (store : List Product) (u : UpdateItem) : List Product :=
  store.map (fun p =>
    if p.id = u.id then { p with title := u.title, handle := u.handle } else p)

/-- repo/product.go UpdateProductsBatch: the updates applied in order. -/
def updateProductsBatch (store : List Product) (batch : List UpdateItem) :
    List Product :=
  batch.foldl applyUpdate store

/-- The combined effect of a list of update statements on one row;
updateProductsBatch applies this function to every row of the store. -/
def updOne (batch : List UpdateItem) (p : Product) : Product :=
  batch.foldl
    (fun p u => if p.id = u.id then { p with title := u.title, handle := u.handle } else p) p

/-- Applying the writes CompareAndSync dispatched to the store: the create
batch and the update batch touch disjoint rows, and we fix the order as
creates first, then updates. -/
def applySync (store : List Product) (nextId : Int) (out : SyncOutput) :
    List Product :=
  updateProductsBatch (createProductsBatch store nextId out.createBatch)
    out.updateBatch

/-! ### The paged fetcher (api/handler fetchAllItemsConcurrently) -/

/-- api PageJob: Skip and Top. Offsets and sizes are the non-negative Go
ints the handler passes (counts and page offsets). -/
structure PageJob where
  skip : Nat
  top : Nat
deriving Repr, DecidableEq

/-- The job-generation loop: for skip := 0; skip < totalCount;
skip += pageSize. The source loop does not terminate when pageSize = 0
(the handler always passes 20); the guard 0 < pageSize makes that
precondition explicit. -/
def pageJobsAux (totalCount pageSize skip : Nat) : List PageJob :=
  if h : 0 < pageSize ∧ skip < totalCount then
    ⟨skip, pageSize⟩ :: pageJobsAux totalCount pageSize (skip + pageSize)
  else []
termination_by totalCount - skip
decreasing_by omega

/-- The page requests fetchAllItemsConcurrently submits to the job
channel; the worker count only sizes channel buffers and the pool, and
plays no part in which jobs are generated. -/
def fetchJobs (totalCount pageSize numWorkers : Nat) : List PageJob :=
  pageJobsAux totalCount pageSize 0

/-- api PageResult: the items of one page, its skip offset, and an
optional error (the error text stands in for the Go error value). -/
structure PageResult where
  items : List RemoteItem
  skip : Nat
  err : Option String
deriving Repr, DecidableEq

/-- The final check-and-combine loop of fetchAllItemsConcurrently over the
collected results (in whatever order the collector received them): the
first result carrying an error aborts the call with that error wrapped
with its skip offset and nil items; otherwise all page item lists are
concatenated. -/
def combineResults : List PageResult → Except (Nat × String) (List RemoteItem)
  | [] => Except.ok []
  | r :: rest =>
    match r.err with
    | some e => Except.error (r.skip, e)
    | none =>
      match combineResults rest with
      | Except.error pe => Except.error pe
      | Except.ok items => Except.ok (r.items ++ items)

/-! ### Derived per-item classification functions used to state and prove
the run-level characterization of CompareAndSync. -/

/-- The title of a valid external item: ItemName present, a string, and
not exactly empty. -/
def validName (item : RemoteItem) : Option String :=
  match itemNameOf item with
  | some s => if s = "" then none else some s
  | none => none

/-- The validation error an item contributes, if any. -/
def errOf (item : RemoteItem) : Option String :=
  match validName item with
  | none => some invalidItemMsg
  | some _ => none

/-- The create-batch entry an item contributes, if any. -/
def createOf (dbMap : String → Option Product) (item : RemoteItem) :
    Option CreateItem :=
  match validName item with
  | none => none
  | some t =>
    match dbMap (normalizeTitle t) with
    | some _ => none
    | none => some ⟨t, generateHandle t⟩

/-- The update-batch entry an item contributes, if any. -/
def updateOf (dbMap : String → Option Product) (item : RemoteItem) :
    Option UpdateItem :=
  match validName item with
  | none => none
  | some t =>
    match dbMap (normalizeTitle t) with
    | none => none
    | some p =>
      if p.title ≠ t ∨ p.handle ≠ generateHandle t then
        some ⟨p.id, t, generateHandle t⟩
      else none

/-- Whether an item is counted as unchanged. -/
def unchangedB (dbMap : String → Option Product) (item : RemoteItem) : Bool :=
  match validName item with
  | none => false
  | some t =>
    match dbMap (normalizeTitle t) with
    | none => false
    | some p => p.title = t ∧ p.handle = generateHandle t

/-- The last product in the list whose normalized title equals the key:
what a Go map built by forward iteration with overwrites binds the key to. -/
def lastMatch (dbProducts : List Product) (k : String) : Option Product :=
  dbProducts.reverse.find? (fun p => normalizeTitle p.title = k)

/-- A convenient constructor for a remote item that carries only a string
ItemName field. -/
def mkItem (t : String) : RemoteItem := [("ItemName", JValue.str t)]


/-! ## Characterization lemmas for the sync engine -/

/-- One loop iteration of CompareAndSync, expressed through the
per-item classification functions. -/
theorem processItem_eq (dbMap : String → Option Product) (st : SyncState)
    (item : RemoteItem) :
    processItem dbMap st item =
      { errors := st.errors ++ (errOf item).toList
      , unchanged := st.unchanged + (if unchangedB dbMap item then 1 else 0)
      , itemsToCreate := st.itemsToCreate ++ (createOf dbMap item).toList
      , itemsToUpdate := st.itemsToUpdate ++ (updateOf dbMap item).toList } := by
  unfold processItem errOf createOf updateOf unchangedB validName
  cases hn : itemNameOf item with
  | none => simp
  | some t =>
    by_cases ht : t = ""
    · subst ht; simp
    · simp only [ht, if_false, ite_false]
      cases hl : dbMap (normalizeTitle t) with
      | none => simp [ht]
      | some p =>
        by_cases hd : p.title ≠ t ∨ p.handle ≠ generateHandle t
        · have hb : ¬(p.title = t ∧ p.handle = generateHandle t) := by tauto
          simp [ht, hd, hb]
        · have hb : p.title = t ∧ p.handle = generateHandle t := by tauto
          simp [ht, hd, hb]

/-- The classification loop of CompareAndSync over a whole item list. -/
theorem foldl_processItem (dbMap : String → Option Product)
    (items : List RemoteItem) (st : SyncState) :
    items.foldl (processItem dbMap) st =
      { errors := st.errors ++ items.filterMap errOf
      , unchanged := st.unchanged + items.countP (unchangedB dbMap)
      , itemsToCreate := st.itemsToCreate ++ items.filterMap (createOf dbMap)
      , itemsToUpdate := st.itemsToUpdate ++ items.filterMap (updateOf dbMap) } := by
  induction items generalizing st with
  | nil => simp
  | cons item rest ih =>
    rw [List.foldl_cons, processItem_eq, ih]
    simp only [SyncState.mk.injEq, List.filterMap_cons, List.countP_cons]
    refine ⟨?_, ?_, ?_, ?_⟩
    · cases h : errOf item <;> simp
    · cases h : unchangedB dbMap item <;> simp [h] <;> omega
    · cases h : createOf dbMap item <;> simp
    · cases h : updateOf dbMap item <;> simp

/-- CompareAndSync in closed form: the batches are the filtered maps of
the per-item classification over the input, the created count is the
create-batch length, the updated count is zero (its assignment is
commented out in the source), and the unchanged count counts the exact
matches. -/
theorem compareAndSync_spec (db : List Product) (items : List RemoteItem) :
    compareAndSync db items =
      { result := { created := (items.filterMap (createOf (buildDbMap db))).length
                  , updated := 0
                  , unchanged := items.countP (unchangedB (buildDbMap db))
                  , errors := items.filterMap errOf }
      , createBatch := items.filterMap (createOf (buildDbMap db))
      , updateBatch := items.filterMap (updateOf (buildDbMap db)) } := by
  simp only [compareAndSync]
  rw [foldl_processItem]
  simp

/-- The database map of CompareAndSync binds a key to the last product in
the fetched order whose normalized title equals the key. -/
theorem buildDbMap_eq_lastMatch (db : List Product) (k : String) :
    buildDbMap db k = lastMatch db k := by
  suffices h : ∀ m : String → Option Product,
      (db.foldl
        (fun m p k => if normalizeTitle p.title = k then some p else m k)
        m) k = (lastMatch db k).or (m k) by
    have h0 := h (fun _ => none)
    simpa [buildDbMap, Option.or_none] using h0
  induction db with
  | nil => intro m; simp [lastMatch]
  | cons p rest ih =>
    intro m
    rw [List.foldl_cons]
    rw [ih]
    have hsplit : lastMatch (p :: rest) k =
        (lastMatch rest k).or (if normalizeTitle p.title = k then some p else none) := by
      unfold lastMatch
      rw [List.reverse_cons, List.find?_append]
      by_cases hc : normalizeTitle p.title = k <;> simp [hc]
    rw [hsplit, Option.or_assoc]
    by_cases hc : normalizeTitle p.title = k <;> simp [hc]

/-! ## Handle derivation lemmas -/

/-- Character equality through code points. -/
theorem char_eq_iff_toNat (c d : Char) : (c = d) ↔ (c.toNat = d.toNat) :=
  ⟨fun h => h ▸ rfl, fun h => Char.eq_of_val_eq (UInt32.toNat.inj h)⟩

/-- UInt32 order through code points. -/
theorem uint32_le_iff_toNat (a b : UInt32) : (a ≤ b) ↔ (a.toNat ≤ b.toNat) := by
  rw [UInt32.le_def]; exact BitVec.le_def ..

/-- Character order through code points. -/
theorem char_le_iff_toNat (c d : Char) : (c ≤ d) ↔ (c.toNat ≤ d.toNat) :=
  uint32_le_iff_toNat c.val d.val

/-- The keep-filter of generateHandle agrees pointwise with the filter the
spec describes. -/
theorem isHandleChar_eq_specKeep (c : Char) :
    isHandleChar c =
      ((97 ≤ c.toNat && c.toNat ≤ 122) || c.isDigit || (decide (c = '-'))) := by
  have h48 : ((48 : UInt32)).toNat = 48 := rfl
  have h57 : ((57 : UInt32)).toNat = 57 := rfl
  have hv : c.val.toNat = c.toNat := rfl
  simp only [isHandleChar, Char.isDigit, char_le_iff_toNat, char_eq_iff_toNat, ge_iff_le,
    uint32_le_iff_toNat, h48, h57, hv]
  have hd : ('-').toNat = 45 := rfl
  simp [hd]

/-- Replacing spaces with hyphens and then underscores with hyphens is the
single combined replacement the spec describes. -/
theorem replace_space_underscore (c : Char) :
    (if (if c = ' ' then '-' else c) = '_' then '-' else (if c = ' ' then '-' else c)) =
      (if c = ' ' ∨ c = '_' then '-' else c) := by
  by_cases h1 : c = ' ' <;> by_cases h2 : c = '_' <;> simp [h1, h2]

/-- generateHandle refines the spec definition of DeriveHandle. -/
theorem generateHandle_eq_specDeriveHandle (t : String) :
    generateHandle t = specDeriveHandle t := by
  unfold generateHandle specDeriveHandle
  congr 1
  rw [List.map_map]
  have h1 : List.map ((fun c => if c = '_' then '-' else c) ∘ fun c => if c = ' ' then '-' else c)
        (List.map goToLowerChar t.data) =
      List.map (fun c => if c = ' ' ∨ c = '_' then '-' else c) (List.map goToLowerChar t.data) :=
    List.map_congr_left (fun c _ => replace_space_underscore c)
  rw [h1]
  exact List.filter_congr (fun c _ => isHandleChar_eq_specKeep c)

/-- Every character of a generated handle is a lowercase ASCII letter, a
decimal digit, or a hyphen. -/
theorem generateHandle_chars (t : String) (c : Char)
    (hc : c ∈ (generateHandle t).data) :
    (97 ≤ c.toNat ∧ c.toNat ≤ 122) ∨ (48 ≤ c.toNat ∧ c.toNat ≤ 57) ∨ c = '-' := by
  unfold generateHandle at hc
  have hkeep := (List.mem_filter.mp hc).2
  simp only [isHandleChar, Bool.or_eq_true, Bool.and_eq_true, decide_eq_true_eq] at hkeep
  rcases hkeep with (h | h) | h
  · exact Or.inl h
  · exact Or.inr (Or.inl h)
  · exact Or.inr (Or.inr ((char_eq_iff_toNat c '-').mpr h))

/-! ## Paged fetcher lemmas -/

/-- The job-generation loop from a given starting offset, in closed form:
one job per page of the remaining range, stepping by the page size. -/
theorem pageJobsAux_eq (ps : Nat) (hps : 0 < ps) :
    ∀ n tc skip, tc - skip ≤ n →
      pageJobsAux tc ps skip =
        (List.range ((tc - skip + ps - 1) / ps)).map
          (fun i => ⟨skip + i * ps, ps⟩) := by
  intro n
  induction n with
  | zero =>
    intro tc skip h
    have hle : tc ≤ skip := by omega
    rw [pageJobsAux, dif_neg (by omega)]
    have h0 : tc - skip = 0 := by omega
    rw [h0]
    rw [Nat.div_eq_of_lt (by omega)]
    simp
  | succ n ih =>
    intro tc skip h
    by_cases hlt : skip < tc
    · rw [pageJobsAux, dif_pos ⟨hps, hlt⟩]
      rw [ih tc (skip + ps) (by omega)]
      have hnum : tc - skip + ps - 1 = (tc - skip - 1) + ps := by omega
      have hdiv : (tc - skip + ps - 1) / ps = (tc - skip - 1) / ps + 1 := by
        rw [hnum, Nat.add_div_right _ hps]
      rw [hdiv, List.range_succ_eq_map, List.map_cons, List.map_map]
      have hinner : (tc - (skip + ps) + ps - 1) / ps = (tc - skip - 1) / ps := by
        by_cases hbig : skip + ps ≤ tc
        · have : tc - (skip + ps) + ps - 1 = tc - skip - 1 := by omega
          rw [this]
        · have h1 : tc - (skip + ps) + ps - 1 = ps - 1 := by omega
          rw [h1, Nat.div_eq_of_lt (by omega), Nat.div_eq_of_lt (by omega)]
      rw [hinner]
      refine congrArg₂ _ (by simp) ?_
      refine List.map_congr_left ?_
      intro i _
      simp only [Function.comp_apply]
      refine congrArg₂ _ ?_ rfl
      rw [Nat.succ_mul]
      omega
    · rw [pageJobsAux, dif_neg (by omega)]
      have h0 : tc - skip = 0 := by omega
      rw [h0, Nat.div_eq_of_lt (by omega)]
      simp

/-! ## Claim theorems -/

/-- C1: the claim says the returned updated count equals the dispatched
update batch size, and that the scenario (store has
id 1, title Product A, handle old-handle-a; remote has ItemName
Product A) reports one update with handle product-a. The code classifies
exactly that one update into the batch with handle product-a, but the
assignment result.Updated = len(itemsToUpdate) is commented out in
repo/sync.go, so the returned updated count is 0, contradicting the claim
(and the repository's own tests, which expect Updated to equal the update
batch size). This theorem evaluates the code at the failing input. -/
theorem C1_updatedCount_divergence :
    (compareAndSync [⟨1, "Product A", "old-handle-a"⟩] [mkItem "Product A"]).updateBatch =
      [⟨1, "Product A", "product-a"⟩] ∧
    (compareAndSync [⟨1, "Product A", "old-handle-a"⟩] [mkItem "Product A"]).result.updated = 0 := by
  constructor
  · decide
  · rfl

/-- C4: the claim says created + updated + unchanged equals the number of
valid remote records. At a store holding id 1, title Product C, handle
old-c, and remote input with the single valid ItemName Product C, the
record is classified into the update batch, but the updated count stays 0
(its assignment is commented out), so the three tallies sum to 0 while the
valid-record count is 1. This theorem evaluates the code at that input. -/
theorem C4_partition_divergence :
    (([mkItem "Product C"] : List RemoteItem).filterMap validName).length = 1 ∧
    (compareAndSync [⟨1, "Product C", "old-c"⟩] [mkItem "Product C"]).updateBatch.length = 1 ∧
    (compareAndSync [⟨1, "Product C", "old-c"⟩] [mkItem "Product C"]).result.created +
      (compareAndSync [⟨1, "Product C", "old-c"⟩] [mkItem "Product C"]).result.updated +
      (compareAndSync [⟨1, "Product C", "old-c"⟩] [mkItem "Product C"]).result.unchanged = 0 := by
  refine ⟨rfl, ?_, rfl⟩
  decide

/-- C5: classification rules of CompareAndSync. A valid remote record
whose normalized key is absent from the database map is appended to the
create batch as its title with the generated handle; one whose key is
found with exactly matching persisted title and handle increments the
unchanged count; and the scenario of an empty store with remote items
Product A and Product B yields two creates, zero updates, zero
unchanged. -/
theorem C5_classification_rules :
    (∀ (dbMap : String → Option Product) (st : SyncState) (item : RemoteItem) (t : String),
        itemNameOf item = some t → t ≠ "" →
        dbMap (normalizeTitle t) = none →
        processItem dbMap st item =
          { st with itemsToCreate := st.itemsToCreate ++ [⟨t, generateHandle t⟩] }) ∧
    (∀ (dbMap : String → Option Product) (st : SyncState) (item : RemoteItem)
        (t : String) (p : Product),
        itemNameOf item = some t → t ≠ "" →
        dbMap (normalizeTitle t) = some p →
        p.title = t → p.handle = generateHandle t →
        processItem dbMap st item = { st with unchanged := st.unchanged + 1 }) ∧
    compareAndSync [] [mkItem "Product A", mkItem "Product B"] =
      { result := { created := 2, updated := 0, unchanged := 0, errors := [] }
      , createBatch := [⟨"Product A", "product-a"⟩, ⟨"Product B", "product-b"⟩]
      , updateBatch := [] } := by
  refine ⟨?_, ?_, by decide⟩
  · intro dbMap st item t hname ht hnone
    unfold processItem
    rw [hname]
    simp [ht, hnone]
  · intro dbMap st item t p hname ht hsome htitle hhandle
    unfold processItem
    rw [hname]
    simp [ht, hsome, htitle, hhandle]

/-- C5 witness: the create rule applied at an empty store and remote item
Product A. -/
theorem C5_witness :
    processItem (buildDbMap []) ⟨[], 0, [], []⟩ (mkItem "Product A") =
      { errors := [], unchanged := 0
      , itemsToCreate := [⟨"Product A", "product-a"⟩], itemsToUpdate := [] } :=
  C5_classification_rules.1 (buildDbMap []) ⟨[], 0, [], []⟩ (mkItem "Product A")
    "Product A" rfl (by decide) rfl

/-- C6: validation skip. A remote record whose ItemName is absent or not
a string, or exactly the empty string, contributes exactly one validation
error and nothing else; the loop continues with the remaining records
(the pass is not aborted); the empty-string scenario yields one error and
zero counts; and the check does not trim, so a whitespace-only name is
treated as valid and creates a record. -/
theorem C6_validation_skip :
    (∀ (dbMap : String → Option Product) (st : SyncState) (item : RemoteItem),
        itemNameOf item = none →
        processItem dbMap st item = { st with errors := st.errors ++ [invalidItemMsg] }) ∧
    (∀ (dbMap : String → Option Product) (st : SyncState) (item : RemoteItem),
        itemNameOf item = some "" →
        processItem dbMap st item = { st with errors := st.errors ++ [invalidItemMsg] }) ∧
    (∀ (dbMap : String → Option Product) (st : SyncState) (item : RemoteItem)
        (rest : List RemoteItem),
        itemNameOf item = none ∨ itemNameOf item = some "" →
        (item :: rest).foldl (processItem dbMap) st =
          rest.foldl (processItem dbMap) { st with errors := st.errors ++ [invalidItemMsg] }) ∧
    compareAndSync [] [mkItem ""] =
      { result := { created := 0, updated := 0, unchanged := 0, errors := [invalidItemMsg] }
      , createBatch := [], updateBatch := [] } ∧
    compareAndSync [] [mkItem "   "] =
      { result := { created := 1, updated := 0, unchanged := 0, errors := [] }
      , createBatch := [⟨"   ", "---"⟩], updateBatch := [] } := by
  have hnone : ∀ (dbMap : String → Option Product) (st : SyncState) (item : RemoteItem),
      itemNameOf item = none →
      processItem dbMap st item = { st with errors := st.errors ++ [invalidItemMsg] } := by
    intro dbMap st item hname
    unfold processItem
    rw [hname]
  have hempty : ∀ (dbMap : String → Option Product) (st : SyncState) (item : RemoteItem),
      itemNameOf item = some "" →
      processItem dbMap st item = { st with errors := st.errors ++ [invalidItemMsg] } := by
    intro dbMap st item hname
    unfold processItem
    rw [hname]
    simp
  refine ⟨hnone, hempty, ?_, by decide, by decide⟩
  intro dbMap st item rest hbad
  rw [List.foldl_cons]
  rcases hbad with hb | hb
  · rw [hnone dbMap st item hb]
  · rw [hempty dbMap st item hb]

/-- C6 witness: a record with no ItemName field yields exactly one
validation error and no other contribution. -/
theorem C6_witness :
    processItem (buildDbMap []) ⟨[], 0, [], []⟩ ([] : RemoteItem) =
      { errors := [invalidItemMsg], unchanged := 0
      , itemsToCreate := [], itemsToUpdate := [] } :=
  C6_validation_skip.1 (buildDbMap []) ⟨[], 0, [], []⟩ [] rfl

/-- C3: fetch atomicity. If any collected page result carries an error,
the combination step of fetchAllItemsConcurrently returns an error
wrapping the skip offset of a failing page, and no records (the error
constructor carries none, so every fetched page is discarded). -/
theorem C3_fetch_atomicity (results : List PageResult)
    (hfail : ∃ r ∈ results, r.err ≠ none) :
    ∃ skip msg, combineResults results = Except.error (skip, msg) ∧
      ∃ r ∈ results, r.skip = skip ∧ r.err = some msg := by
  induction results with
  | nil => simp at hfail
  | cons r rest ih =>
    cases herr : r.err with
    | some e =>
      exact ⟨r.skip, e, by simp [combineResults, herr],
        r, List.mem_cons_self r rest, rfl, herr⟩
    | none =>
      have hfail2 : ∃ x ∈ rest, x.err ≠ none := by
        rcases hfail with ⟨x, hx, hne⟩
        rcases List.mem_cons.mp hx with hx | hx
        · subst hx; exact absurd herr hne
        · exact ⟨x, hx, hne⟩
      rcases ih hfail2 with ⟨skip, msg, hcomb, x, hx, hskip, herr2⟩
      exact ⟨skip, msg, by simp [combineResults, herr, hcomb],
        x, List.mem_cons_of_mem r hx, hskip, herr2⟩

/-- C3 witness: one failing page among two makes the combination fail
with that page's offset. -/
theorem C3_fetch_atomicity_witness :
    ∃ skip msg,
      combineResults [⟨[], 0, none⟩, ⟨[], 20, some "boom"⟩] = Except.error (skip, msg) ∧
      ∃ r ∈ [(⟨[], 0, none⟩ : PageResult), ⟨[], 20, some "boom"⟩],
        r.skip = skip ∧ r.err = some msg :=
  C3_fetch_atomicity _ ⟨⟨[], 20, some "boom"⟩, by decide, by decide⟩

/-- C7: fetch totality. The generated page jobs do not depend on the
worker count; for a positive page size they are exactly the offsets
0, pageSize, 2 pageSize and so on strictly below totalCount, which is
ceil(totalCount / pageSize) many; and with totalCount 47 and page size
20 exactly the offsets 0, 20, 40 are issued. -/
theorem C7_fetch_totality :
    (∀ tc ps w w2, fetchJobs tc ps w = fetchJobs tc ps w2) ∧
    (∀ tc ps w, 0 < ps →
      fetchJobs tc ps w =
        (List.range ((tc + ps - 1) / ps)).map (fun i => ⟨i * ps, ps⟩)) ∧
    (∀ tc ps w, 0 < ps → (fetchJobs tc ps w).length = (tc + ps - 1) / ps) ∧
    (fetchJobs 47 20 2).map PageJob.skip = [0, 20, 40] := by
  have hform : ∀ tc ps w, 0 < ps →
      fetchJobs tc ps w =
        (List.range ((tc + ps - 1) / ps)).map (fun i => (⟨i * ps, ps⟩ : PageJob)) := by
    intro tc ps w hps
    have h := pageJobsAux_eq ps hps tc tc 0 (by omega)
    simpa [fetchJobs] using h
  refine ⟨fun tc ps w w2 => rfl, hform, ?_, ?_⟩
  · intro tc ps w hps
    rw [hform tc ps w hps]
    simp
  · rw [hform 47 20 2 (by decide)]
    decide

/-- C7 witness: the closed form instantiated at 47 items, page size 20,
2 workers. -/
theorem C7_witness :
    fetchJobs 47 20 2 = (List.range ((47 + 20 - 1) / 20)).map (fun i => ⟨i * 20, 20⟩) :=
  C7_fetch_totality.2.1 47 20 2 (by decide)

/-- C8: generateHandle equals the reference DeriveHandle of the spec
(lowercase, replace each space and underscore with a hyphen, delete every
character that is not a lowercase ASCII letter, digit, or hyphen, with no
hyphen-run collapsing); its output alphabet is lowercase letters, digits
and hyphens; and it maps the accented title Cafe-with-accents to
caf-latt, stripping rather than transliterating. -/
theorem C8_derive_handle :
    (∀ t, generateHandle t = specDeriveHandle t) ∧
    (∀ t c, c ∈ (generateHandle t).data →
      (97 ≤ c.toNat ∧ c.toNat ≤ 122) ∨ (48 ≤ c.toNat ∧ c.toNat ≤ 57) ∨ c = '-') ∧
    generateHandle "Café Latté" = "caf-latt" :=
  ⟨generateHandle_eq_specDeriveHandle, generateHandle_chars, by decide⟩

/-- C8 witness: the refinement and the alphabet property at concrete
inputs. -/
theorem C8_witness :
    generateHandle "Product_A 1" = specDeriveHandle "Product_A 1" ∧
    ((97 ≤ ('p').toNat ∧ ('p').toNat ≤ 122) ∨
      (48 ≤ ('p').toNat ∧ ('p').toNat ≤ 57) ∨ ('p') = '-') :=
  ⟨C8_derive_handle.1 "Product_A 1",
    C8_derive_handle.2.1 "Product_A 1" 'p' (by decide)⟩

/-! ## Last-binding lemmas and claim C9 -/

/-- A product found by lastMatch is a member with the matching key. -/
theorem lastMatch_mem (db : List Product) (k : String) (p : Product)
    (h : lastMatch db k = some p) : p ∈ db ∧ normalizeTitle p.title = k := by
  unfold lastMatch at h
  refine ⟨List.mem_reverse.mp (List.mem_of_find?_eq_some h), ?_⟩
  have := List.find?_some h
  simpa using this

/-- A member with the matching key makes lastMatch succeed. -/
theorem lastMatch_isSome_of_mem (db : List Product) (k : String) (p : Product)
    (hp : p ∈ db) (hk : normalizeTitle p.title = k) :
    ∃ q, lastMatch db k = some q := by
  rw [← Option.isSome_iff_exists]
  unfold lastMatch
  rw [List.find?_isSome]
  exact ⟨p, List.mem_reverse.mpr hp, by simp [hk]⟩

/-- C9: the database map built by CompareAndSync binds every key to the
last product of the fetched order whose normalized title equals that key,
and a valid remote item whose key is bound to that product is classified
(updated, or counted unchanged) against that product alone; earlier
products with the same normalized title are never consulted. -/
theorem C9_last_wins :
    (∀ (db : List Product) (k : String), buildDbMap db k = lastMatch db k) ∧
    (∀ (db : List Product) (st : SyncState) (t : String) (p : Product),
        t ≠ "" → lastMatch db (normalizeTitle t) = some p →
        processItem (buildDbMap db) st (mkItem t) =
          (if p.title ≠ t ∨ p.handle ≠ generateHandle t then
            { st with itemsToUpdate := st.itemsToUpdate ++ [⟨p.id, t, generateHandle t⟩] }
          else { st with unchanged := st.unchanged + 1 })) := by
  refine ⟨buildDbMap_eq_lastMatch, ?_⟩
  intro db st t p ht hp
  have hl : buildDbMap db (normalizeTitle t) = some p :=
    (buildDbMap_eq_lastMatch db _).trans hp
  unfold processItem
  rw [show itemNameOf (mkItem t) = some t from rfl]
  simp only [ht, if_false, ite_false]
  rw [hl]

/-- C9 witness: two persisted products share the normalized title a; the
map binds a to the later one (id 2) and the remote item A is classified
against it. -/
theorem C9_witness :
    buildDbMap [⟨1, "A", "old"⟩, ⟨2, "A", "a"⟩] "a" =
      lastMatch [⟨1, "A", "old"⟩, ⟨2, "A", "a"⟩] "a" ∧
    processItem (buildDbMap [⟨1, "A", "old"⟩, ⟨2, "A", "a"⟩]) ⟨[], 0, [], []⟩ (mkItem "A") =
      (if (⟨2, "A", "a"⟩ : Product).title ≠ "A" ∨
          (⟨2, "A", "a"⟩ : Product).handle ≠ generateHandle "A" then
        { errors := [], unchanged := 0, itemsToCreate := []
        , itemsToUpdate := [⟨2, "A", generateHandle "A"⟩] }
      else { errors := [], unchanged := 1, itemsToCreate := [], itemsToUpdate := [] }) :=
  ⟨C9_last_wins.1 [⟨1, "A", "old"⟩, ⟨2, "A", "a"⟩] "a",
    C9_last_wins.2 [⟨1, "A", "old"⟩, ⟨2, "A", "a"⟩] ⟨[], 0, [], []⟩ "A" ⟨2, "A", "a"⟩
      (by decide) (by decide)⟩

/-! ## Store-transition lemmas for the batch writes -/

/-- Applying an update batch maps every row through the combined
per-row update. -/
theorem updateProductsBatch_eq_map (batch : List UpdateItem) :
    ∀ store : List Product, updateProductsBatch store batch = store.map (updOne batch) := by
  induction batch with
  | nil =>
    intro store
    rw [show updOne [] = id from rfl, List.map_id]
    rfl
  | cons u rest ih =>
    intro store
    have h1 : updateProductsBatch store (u :: rest) =
        updateProductsBatch (applyUpdate store u) rest := rfl
    rw [h1, ih, applyUpdate, List.map_map]
    refine List.map_congr_left ?_
    intro p _
    rfl

/-- The combined per-row update never changes the row id. -/
theorem updOne_id (batch : List UpdateItem) :
    ∀ p : Product, (updOne batch p).id = p.id := by
  induction batch with
  | nil => intro p; rfl
  | cons u rest ih =>
    intro p
    have h1 : updOne (u :: rest) p =
        updOne rest (if p.id = u.id then { p with title := u.title, handle := u.handle } else p) :=
      rfl
    rw [h1, ih]
    by_cases h : p.id = u.id <;> simp [h]

/-- If every update aimed at this row carries a title with the row's own
normalized title, the row's normalized title is unchanged by the batch. -/
theorem updOne_title_key (batch : List UpdateItem) :
    ∀ p : Product,
      (∀ u ∈ batch, u.id = p.id → normalizeTitle u.title = normalizeTitle p.title) →
      normalizeTitle (updOne batch p).title = normalizeTitle p.title := by
  induction batch with
  | nil => intro p _; rfl
  | cons u rest ih =>
    intro p h
    by_cases hid : p.id = u.id
    · have hk : normalizeTitle u.title = normalizeTitle p.title :=
        h u (List.mem_cons_self u rest) hid.symm
      have h1 : updOne (u :: rest) p = updOne rest ⟨p.id, u.title, u.handle⟩ := by
        simp [updOne, hid]
      rw [h1]
      have h2 := ih ⟨p.id, u.title, u.handle⟩ ?_
      · rw [h2]; exact hk
      · intro u2 hu2 hid2
        have := h u2 (List.mem_cons_of_mem u hu2) hid2
        rw [this, hk]
    · have h1 : updOne (u :: rest) p = updOne rest p := by
        simp [updOne, hid]
      rw [h1]
      exact ih p (fun u2 hu2 hid2 => h u2 (List.mem_cons_of_mem u hu2) hid2)

/-- A row no update aims at passes through the batch untouched. -/
theorem updOne_eq_of_no_match (batch : List UpdateItem) :
    ∀ p : Product, (∀ u ∈ batch, u.id ≠ p.id) → updOne batch p = p := by
  induction batch with
  | nil => intro p _; rfl
  | cons u rest ih =>
    intro p h
    have hid : p.id ≠ u.id := fun hc => h u (List.mem_cons_self u rest) hc.symm
    have h1 : updOne (u :: rest) p = updOne rest p := by
      simp [updOne, hid]
    rw [h1]
    exact ih p (fun u2 hu2 => h u2 (List.mem_cons_of_mem u hu2))

/-- One step of the create-batch fold. -/
theorem createProductsBatch_cons (s : List Product) (nid : Int) (c : CreateItem)
    (rest : List CreateItem) :
    createProductsBatch s nid (c :: rest) =
      if handleExists s c.handle then createProductsBatch s nid rest
      else createProductsBatch (s ++ [⟨nid, c.title, c.handle⟩]) (nid + 1) rest := by
  unfold createProductsBatch
  rw [List.foldl_cons]
  by_cases h : handleExists s c.handle <;> simp [h]

/-- The create batch only appends rows: existing rows survive. -/
theorem mem_createProductsBatch_of_mem (batch : List CreateItem) :
    ∀ (s : List Product) (nid : Int) (p : Product),
      p ∈ s → p ∈ createProductsBatch s nid batch := by
  induction batch with
  | nil => intro s nid p hp; exact hp
  | cons c rest ih =>
    intro s nid p hp
    rw [createProductsBatch_cons]
    by_cases h : handleExists s c.handle
    · rw [if_pos h]; exact ih s nid p hp
    · rw [if_neg h]
      exact ih _ _ p (List.mem_append_left _ hp)

/-- The create batch adds at most one row per entry. -/
theorem createProductsBatch_length_le (batch : List CreateItem) :
    ∀ (s : List Product) (nid : Int),
      (createProductsBatch s nid batch).length ≤ s.length + batch.length := by
  induction batch with
  | nil => intro s nid; simp [createProductsBatch]
  | cons c rest ih =>
    intro s nid
    rw [createProductsBatch_cons]
    by_cases h : handleExists s c.handle
    · rw [if_pos h]
      have := ih s nid
      simp only [List.length_cons]
      omega
    · rw [if_neg h]
      have := ih (s ++ [⟨nid, c.title, c.handle⟩]) (nid + 1)
      simp only [List.length_append, List.length_cons, List.length_nil] at this ⊢
      omega

/-- When no duplicate-handle skip happened (the result has one new row per
batch entry), every batch entry is present as a row with a fresh id. -/
theorem createProductsBatch_noskip_mem (batch : List CreateItem) :
    ∀ (s : List Product) (nid : Int),
      (createProductsBatch s nid batch).length = s.length + batch.length →
      ∀ c ∈ batch, ∃ i : Int, nid ≤ i ∧
        (⟨i, c.title, c.handle⟩ : Product) ∈ createProductsBatch s nid batch := by
  induction batch with
  | nil => intro s nid _ c hc; cases hc
  | cons c rest ih =>
    intro s nid hlen c2 hc2
    rw [createProductsBatch_cons] at hlen ⊢
    by_cases hex : handleExists s c.handle
    · exfalso
      rw [if_pos hex] at hlen
      have := createProductsBatch_length_le rest s nid
      simp only [List.length_cons, List.length_nil, List.length_append] at hlen
      omega
    · rw [if_neg hex] at hlen ⊢
      rcases List.mem_cons.mp hc2 with rfl | hc2
      · refine ⟨nid, le_refl nid, ?_⟩
        exact mem_createProductsBatch_of_mem rest _ _ _ (List.mem_append_right _ (by simp))
      · have hlen2 : (createProductsBatch (s ++ [(⟨nid, c.title, c.handle⟩ : Product)]) (nid + 1) rest).length =
            (s ++ [(⟨nid, c.title, c.handle⟩ : Product)]).length + rest.length := by
          simp only [List.length_append, List.length_cons, List.length_nil] at hlen ⊢
          omega
        rcases ih (s ++ [(⟨nid, c.title, c.handle⟩ : Product)]) (nid + 1) hlen2 c2 hc2 with ⟨i, hi, hmem⟩
        exact ⟨i, by omega, hmem⟩

/-- updateOf on an invalid item. -/
theorem updateOf_invalid (dbMap : String → Option Product) (item : RemoteItem)
    (hv : validName item = none) : updateOf dbMap item = none := by
  unfold updateOf; rw [hv]

/-- updateOf on a valid item whose key is unbound. -/
theorem updateOf_notfound (dbMap : String → Option Product) (item : RemoteItem)
    (t : String) (hv : validName item = some t)
    (hl : dbMap (normalizeTitle t) = none) : updateOf dbMap item = none := by
  unfold updateOf
  rw [hv]
  show (match dbMap (normalizeTitle t) with
    | none => none
    | some p =>
      if p.title ≠ t ∨ p.handle ≠ generateHandle t then
        some (⟨p.id, t, generateHandle t⟩ : UpdateItem)
      else none) = none
  rw [hl]

/-- updateOf on a valid item whose key is bound. -/
theorem updateOf_found (dbMap : String → Option Product) (item : RemoteItem)
    (t : String) (p : Product) (hv : validName item = some t)
    (hl : dbMap (normalizeTitle t) = some p) :
    updateOf dbMap item =
      (if p.title ≠ t ∨ p.handle ≠ generateHandle t then
        some (⟨p.id, t, generateHandle t⟩ : UpdateItem)
      else none) := by
  unfold updateOf
  rw [hv]
  show (match dbMap (normalizeTitle t) with
    | none => none
    | some p =>
      if p.title ≠ t ∨ p.handle ≠ generateHandle t then
        some (⟨p.id, t, generateHandle t⟩ : UpdateItem)
      else none) = _
  rw [hl]

/-- createOf on an invalid item. -/
theorem createOf_invalid (dbMap : String → Option Product) (item : RemoteItem)
    (hv : validName item = none) : createOf dbMap item = none := by
  unfold createOf; rw [hv]

/-- createOf on a valid item whose key is bound. -/
theorem createOf_found (dbMap : String → Option Product) (item : RemoteItem)
    (t : String) (p : Product) (hv : validName item = some t)
    (hl : dbMap (normalizeTitle t) = some p) : createOf dbMap item = none := by
  unfold createOf
  rw [hv]
  show (match dbMap (normalizeTitle t) with
    | some _ => none
    | none => some (⟨t, generateHandle t⟩ : CreateItem)) = none
  rw [hl]

/-- createOf on a valid item whose key is unbound. -/
theorem createOf_notfound (dbMap : String → Option Product) (item : RemoteItem)
    (t : String) (hv : validName item = some t)
    (hl : dbMap (normalizeTitle t) = none) :
    createOf dbMap item = some (⟨t, generateHandle t⟩ : CreateItem) := by
  unfold createOf
  rw [hv]
  show (match dbMap (normalizeTitle t) with
    | some _ => none
    | none => some (⟨t, generateHandle t⟩ : CreateItem)) = _
  rw [hl]

/-- Every dispatched update entry carries the id and the normalized title
of some persisted product. -/
theorem updateBatch_entry (db : List Product) (items : List RemoteItem) (u : UpdateItem)
    (hu : u ∈ items.filterMap (updateOf (buildDbMap db))) :
    ∃ p ∈ db, u.id = p.id ∧ normalizeTitle u.title = normalizeTitle p.title := by
  rcases List.mem_filterMap.mp hu with ⟨item, _, hOf⟩
  cases hv : validName item with
  | none => rw [updateOf_invalid _ _ hv] at hOf; cases hOf
  | some t =>
    cases hl : buildDbMap db (normalizeTitle t) with
    | none => rw [updateOf_notfound _ _ _ hv hl] at hOf; cases hOf
    | some p =>
      rw [updateOf_found _ _ _ _ hv hl] at hOf
      by_cases hd : p.title ≠ t ∨ p.handle ≠ generateHandle t
      · rw [if_pos hd] at hOf
        have hlm : lastMatch db (normalizeTitle t) = some p :=
          (buildDbMap_eq_lastMatch db _).symm.trans hl
        rcases lastMatch_mem db _ p hlm with ⟨hpmem, hpk⟩
        cases hOf
        exact ⟨p, hpmem, rfl, hpk.symm⟩
      · rw [if_neg hd] at hOf; cases hOf

/-- In a store with pairwise-distinct ids, a shared id forces equality. -/
theorem pairwise_id_inj (db : List Product)
    (hdb : db.Pairwise (fun a b => a.id ≠ b.id)) (a b : Product)
    (ha : a ∈ db) (hb : b ∈ db) (hid : a.id = b.id) : a = b := by
  induction db with
  | nil => cases ha
  | cons x rest ih =>
    rcases List.pairwise_cons.mp hdb with ⟨hx, hrest⟩
    rcases List.mem_cons.mp ha with rfl | ha2
    · rcases List.mem_cons.mp hb with rfl | hb2
      · rfl
      · exact absurd hid (hx b hb2)
    · rcases List.mem_cons.mp hb with rfl | hb2
      · exact absurd hid.symm (hx a ha2)
      · exact ih hrest ha2 hb2

/-! ## Claim C2: idempotence of the sync pass -/

/-- C2 counterexample: the claim as stated fails. Store one product with
handle a-b (title x); remote has the single item with ItemName a-space-b.
The first run classifies it as a create (its normalized title is unbound),
but applying the create batch skips the row because the handle a-b already
exists, so the store is unchanged and the second run creates again:
createdCount is 1, not 0. -/
theorem C2_idempotence_counterexample :
    (compareAndSync
        (applySync [⟨1, "x", "a-b"⟩] 2 (compareAndSync [⟨1, "x", "a-b"⟩] [mkItem "a b"]))
        [mkItem "a b"]).result.created = 1 ∧
    ¬ ((compareAndSync
        (applySync [⟨1, "x", "a-b"⟩] 2 (compareAndSync [⟨1, "x", "a-b"⟩] [mkItem "a b"]))
        [mkItem "a b"]).result.created = 0) := by
  constructor
  · decide
  · decide

/-- After one sync pass is applied, every valid remote title's normalized
key is bound in the resulting store, provided the store snapshot has
pairwise-distinct ids, the fresh ids start above every persisted id, and
applying the create batch skipped no row. -/
theorem second_run_key_found (db : List Product) (items : List RemoteItem) (nextId : Int)
    (hids : db.Pairwise (fun a b => a.id ≠ b.id))
    (hfresh : ∀ p ∈ db, p.id < nextId)
    (hnoskip : (createProductsBatch db nextId (items.filterMap (createOf (buildDbMap db)))).length =
      db.length + (items.filterMap (createOf (buildDbMap db))).length)
    (item : RemoteItem) (hitem : item ∈ items) (t : String) (hv : validName item = some t) :
    ∃ q ∈ (createProductsBatch db nextId (items.filterMap (createOf (buildDbMap db)))).map
        (updOne (items.filterMap (updateOf (buildDbMap db)))),
      normalizeTitle q.title = normalizeTitle t := by
  cases hlm : lastMatch db (normalizeTitle t) with
  | some q =>
    rcases lastMatch_mem db _ q hlm with ⟨hqmem, hqk⟩
    have hkeys : ∀ u ∈ items.filterMap (updateOf (buildDbMap db)),
        u.id = q.id → normalizeTitle u.title = normalizeTitle q.title := by
      intro u hu huid
      rcases updateBatch_entry db items u hu with ⟨p2, hp2mem, huid2, hukey⟩
      have hp2q : p2 = q := by
        refine pairwise_id_inj db hids p2 q hp2mem hqmem ?_
        omega
      rw [hukey, hp2q]
    refine ⟨updOne (items.filterMap (updateOf (buildDbMap db))) q,
      List.mem_map_of_mem _
        (mem_createProductsBatch_of_mem _ db nextId q hqmem), ?_⟩
    rw [updOne_title_key _ q hkeys]
    exact hqk
  | none =>
    have hcOf : createOf (buildDbMap db) item = some ⟨t, generateHandle t⟩ :=
      createOf_notfound (buildDbMap db) item t hv
        ((buildDbMap_eq_lastMatch db _).trans hlm)
    have hmem : (⟨t, generateHandle t⟩ : CreateItem) ∈
        items.filterMap (createOf (buildDbMap db)) :=
      List.mem_filterMap.mpr ⟨item, hitem, hcOf⟩
    rcases createProductsBatch_noskip_mem _ db nextId hnoskip _ hmem with ⟨i, hi, hrmem⟩
    have hno : ∀ u ∈ items.filterMap (updateOf (buildDbMap db)),
        u.id ≠ (⟨i, t, generateHandle t⟩ : Product).id := by
      intro u hu hcontra
      rcases updateBatch_entry db items u hu with ⟨p2, hp2mem, huid2, _⟩
      have := hfresh p2 hp2mem
      simp only at hcontra
      omega
    refine ⟨updOne (items.filterMap (updateOf (buildDbMap db))) ⟨i, t, generateHandle t⟩,
      List.mem_map_of_mem _ hrmem, ?_⟩
    rw [updOne_eq_of_no_match _ _ hno]

/-- C2 (amended): running CompareAndSync a second time with the identical
remote list, after applying the first run's batched writes (modelled from
the SQL of CreateProductsBatch and UpdateProductsBatch, since the calls
themselves are commented out in CompareAndSync), returns updatedCount 0
always, and createdCount 0 provided the store snapshot has
pairwise-distinct primary keys, the freshly assigned ids start above every
persisted id, and applying the create batch skipped no row on a duplicate
handle; when a duplicate-handle skip does occur the second run can create
again, as the counterexample shows. -/
theorem C2_idempotence_amended (db : List Product) (items : List RemoteItem) (nextId : Int)
    (hids : db.Pairwise (fun a b => a.id ≠ b.id))
    (hfresh : ∀ p ∈ db, p.id < nextId)
    (hnoskip : (createProductsBatch db nextId (compareAndSync db items).createBatch).length =
      db.length + (compareAndSync db items).createBatch.length) :
    (compareAndSync (applySync db nextId (compareAndSync db items)) items).result.created = 0 ∧
    (compareAndSync (applySync db nextId (compareAndSync db items)) items).result.updated = 0 := by
  have hcb : (compareAndSync db items).createBatch =
      items.filterMap (createOf (buildDbMap db)) := by rw [compareAndSync_spec]
  have hub : (compareAndSync db items).updateBatch =
      items.filterMap (updateOf (buildDbMap db)) := by rw [compareAndSync_spec]
  rw [hcb] at hnoskip
  have happ : applySync db nextId (compareAndSync db items) =
      (createProductsBatch db nextId (items.filterMap (createOf (buildDbMap db)))).map
        (updOne (items.filterMap (updateOf (buildDbMap db)))) := by
    unfold applySync
    rw [hcb, hub, updateProductsBatch_eq_map]
  rw [happ]
  refine ⟨?_, by rw [compareAndSync_spec]⟩
  simp only [compareAndSync_spec]
  rw [List.length_eq_zero, List.filterMap_eq_nil_iff]
  intro item hitem
  cases hv : validName item with
  | none => exact createOf_invalid _ _ hv
  | some t =>
    rcases second_run_key_found db items nextId hids hfresh hnoskip item hitem t hv with
      ⟨q, hqmem, hqkey⟩
    rcases lastMatch_isSome_of_mem _ (normalizeTitle t) q hqmem hqkey with ⟨q2, hq2⟩
    exact createOf_found _ item t q2 hv ((buildDbMap_eq_lastMatch _ _).trans hq2)

/-- C2 witness: the amended idempotence at an empty store and one remote
item. -/
theorem C2_idempotence_witness :
    (compareAndSync (applySync [] 1 (compareAndSync [] [mkItem "Product A"]))
        [mkItem "Product A"]).result.created = 0 ∧
    (compareAndSync (applySync [] 1 (compareAndSync [] [mkItem "Product A"]))
        [mkItem "Product A"]).result.updated = 0 :=
  C2_idempotence_amended [] [mkItem "Product A"] 1 (by decide)
    (by intro p hp; cases hp) (by decide)

/-! ## Claim C10: duplicate remote titles in one input -/

/-- A remote item holding only a non-empty string ItemName is valid with
that title. -/
theorem validName_mkItem (t : String) (h : t ≠ "") :
    validName (mkItem t) = some t := by
  unfold validName
  rw [show itemNameOf (mkItem t) = some t from rfl]
  simp [h]

/-- C10 counterexample: the claim as stated fails. The titles a-space-b
and space-a-space-b share the normalized title, both are appended to the
create batch of an empty store and both are counted, but their handles
differ (a-b versus hyphen-a-b), so they are not identical as the claim
asserts. -/
theorem C10_duplicate_creates_counterexample :
    normalizeTitle "a b" = normalizeTitle " a b" ∧
    (compareAndSync [] [mkItem "a b", mkItem " a b"]).createBatch =
      [⟨"a b", "a-b"⟩, ⟨" a b", "-a-b"⟩] ∧
    (compareAndSync [] [mkItem "a b", mkItem " a b"]).result.created = 2 ∧
    ¬ generateHandle "a b" = generateHandle " a b" := by
  refine ⟨by decide, by decide, by decide, by decide⟩

/-- C10 (amended): the persisted-record mapping is never extended during
classification, so two valid remote records sharing an unbound normalized
title are both appended to the create batch and both counted toward
createdCount; their handles coincide whenever the lowercased character
sequences of the two titles agree, but same-key titles differing in
leading or trailing whitespace can yield different handles; and the batch
insert still skips the second row on a duplicate handle. -/
theorem C10_duplicate_creates_amended (db : List Product)
    (pre mid post : List RemoteItem) (t1 t2 : String)
    (h1 : t1 ≠ "") (h2 : t2 ≠ "")
    (hkey : normalizeTitle t1 = normalizeTitle t2)
    (hnone : buildDbMap db (normalizeTitle t1) = none) :
    ((⟨t1, generateHandle t1⟩ : CreateItem) ∈
      (compareAndSync db (pre ++ [mkItem t1] ++ mid ++ [mkItem t2] ++ post)).createBatch) ∧
    ((⟨t2, generateHandle t2⟩ : CreateItem) ∈
      (compareAndSync db (pre ++ [mkItem t1] ++ mid ++ [mkItem t2] ++ post)).createBatch) ∧
    (compareAndSync db (pre ++ [mkItem t1] ++ mid ++ [mkItem t2] ++ post)).result.created =
      (compareAndSync db (pre ++ [mkItem t1] ++ mid ++ [mkItem t2] ++ post)).createBatch.length ∧
    2 ≤ (compareAndSync db (pre ++ [mkItem t1] ++ mid ++ [mkItem t2] ++ post)).result.created ∧
    (t1.data.map goToLowerChar = t2.data.map goToLowerChar →
      generateHandle t1 = generateHandle t2) ∧
    (∀ (store : List Product) (nid : Int) (c1 c2 : CreateItem),
      c1.handle = c2.handle → handleExists store c1.handle = false →
      createProductsBatch store nid [c1, c2] =
        store ++ [⟨nid, c1.title, c1.handle⟩]) := by
  have hv1 : validName (mkItem t1) = some t1 := validName_mkItem t1 h1
  have hv2 : validName (mkItem t2) = some t2 := validName_mkItem t2 h2
  have hc1 : createOf (buildDbMap db) (mkItem t1) = some ⟨t1, generateHandle t1⟩ :=
    createOf_notfound _ _ _ hv1 hnone
  have hc2 : createOf (buildDbMap db) (mkItem t2) = some ⟨t2, generateHandle t2⟩ :=
    createOf_notfound _ _ _ hv2 (by rw [← hkey]; exact hnone)
  refine ⟨?_, ?_, by rw [compareAndSync_spec], ?_, ?_, ?_⟩
  · rw [compareAndSync_spec]
    exact List.mem_filterMap.mpr ⟨mkItem t1, by simp, hc1⟩
  · rw [compareAndSync_spec]
    exact List.mem_filterMap.mpr ⟨mkItem t2, by simp, hc2⟩
  · simp only [compareAndSync_spec, List.filterMap_append, List.filterMap_cons, hc1, hc2,
      List.filterMap_nil, List.length_append, List.length_cons, List.length_nil]
    omega
  · intro hlow
    unfold generateHandle
    rw [hlow]
  · intro store nid c1 c2 hch hne
    rw [createProductsBatch_cons, if_neg (by simp [hne]), createProductsBatch_cons,
      if_pos (by simp [handleExists, List.any_append, ← hch])]
    rfl

/-- C10 witness: the amended statement instantiated at an empty store and
the titles a-space-b and space-a-space-b. -/
theorem C10_witness :
    2 ≤ (compareAndSync []
        ([] ++ [mkItem "a b"] ++ [] ++ [mkItem " a b"] ++ [])).result.created :=
  (C10_duplicate_creates_amended [] [] [] [] "a b" " a b"
    (by decide) (by decide) (by decide) rfl).2.2.2.1

end GoCron
